import Mathlib

/-!
# PROM reader: the scan loop, the pin map and the line format

A shallow embedding of `example.c`, the firmware that walks the address bus of
a parallel PROM, samples its data bus and prints one line per non-zero byte.

Conventions of the embedding.

* `uint8_t` and `uint16_t` values are natural numbers; every place where the C
  code truncates (an assignment to a narrower type, a parameter of type
  `uint8_t`, an increment of a `uint16_t`) carries an explicit `% 256` or
  `% 65536`.
* The I/O registers of the AVR are fields of `Regs`.  The `PINx` registers are
  inputs: their value at sampling time is supplied from outside (`Input`).
* Calls into the USB serial library are recorded as a list of `Event`s, in
  program order.
-/

namespace Prom

/-! ## Character helpers (lines 22-50) -/

/-- The function `hexdigit` of the source: the parameter is a `uint8_t`, the
low nibble is kept and mapped to `'0'..'9'` or `'A'..'F'`. -/
def hexdigit (x : Nat) : Nat :=
  let x := (x % 256) &&& 0xF
  if x < 0xA then
    (x + 48 - 0x0) % 256
  else
    (x + 65 - 0xA) % 256

/-- The function `printable` of the source: 1 for letters, digits and the
space, 0 for everything else. -/
def printable (x : Nat) : Nat :=
  let x := x % 256
  if 65 ≤ x ∧ x ≤ 90 then 1
  else if 97 ≤ x ∧ x ≤ 122 then 1
  else if 48 ≤ x ∧ x ≤ 57 then 1
  else if x = 32 then 1
  else 0

/-! ## Registers and the pin map (lines 54-141) -/

/-- The I/O registers the program touches. -/
structure Regs where
  CLKPR : Nat
  PORTB : Nat
  PORTC : Nat
  PORTD : Nat
  PORTF : Nat
  DDRB : Nat
  DDRC : Nat
  DDRD : Nat
  DDRF : Nat
  PINB : Nat
  PINC : Nat
  PIND : Nat
  PINF : Nat
deriving DecidableEq

/-- Write to `PORTB`. -/
def Regs.setPORTB (r : Regs) (v : Nat) : Regs := { r with PORTB := v }

/-- Write to `PORTC`. -/
def Regs.setPORTC (r : Regs) (v : Nat) : Regs := { r with PORTC := v }

/-- Write to `PORTD`. -/
def Regs.setPORTD (r : Regs) (v : Nat) : Regs := { r with PORTD := v }

/-- Write to `DDRB`. -/
def Regs.setDDRB (r : Regs) (v : Nat) : Regs := { r with DDRB := v }

/-- Write to `DDRC`. -/
def Regs.setDDRC (r : Regs) (v : Nat) : Regs := { r with DDRC := v }

/-- Write to `DDRD`. -/
def Regs.setDDRD (r : Regs) (v : Nat) : Regs := { r with DDRD := v }

/-- Write to `DDRF`. -/
def Regs.setDDRF (r : Regs) (v : Nat) : Regs := { r with DDRF := v }

/-- Write to `CLKPR`. -/
def Regs.setCLKPR (r : Regs) (v : Nat) : Regs := { r with CLKPR := v }

/-- The macro `sbi(PORT, PIN)`: `PORT |= (1 << PIN)` on an 8-bit register. -/
def sbi (port pin : Nat) : Nat :=
  (port ||| (1 <<< pin)) % 256

/-- The macro `cbi(PORT, PIN)`: `PORT &= ~(1 << PIN)` on an 8-bit register. -/
def cbi (port pin : Nat) : Nat :=
  port &&& (0xFF ^^^ ((1 <<< pin) % 256))

/-- The macro `ADDR_BIT(ID, bit)` applied to the register and pin number that
`ADDR_PORT_ID` and `ADDR_PIN_ID` name. -/
def ADDR_BIT (port pin bit : Nat) : Nat :=
  if bit ≠ 0 then sbi port pin else cbi port pin

/-- The function `set_address` of the source, lines 143-174: thirteen
`ADDR_BIT` steps, each followed by `addr >>= 1`. -/
def set_address (r : Regs) (addr : Nat) : Regs :=
  let r := r.setPORTB (ADDR_BIT r.PORTB 0 (addr &&& 1))
  let addr := addr >>> 1
  let r := r.setPORTB (ADDR_BIT r.PORTB 1 (addr &&& 1))
  let addr := addr >>> 1
  let r := r.setPORTB (ADDR_BIT r.PORTB 2 (addr &&& 1))
  let addr := addr >>> 1
  let r := r.setPORTB (ADDR_BIT r.PORTB 3 (addr &&& 1))
  let addr := addr >>> 1
  let r := r.setPORTB (ADDR_BIT r.PORTB 7 (addr &&& 1))
  let addr := addr >>> 1
  let r := r.setPORTD (ADDR_BIT r.PORTD 0 (addr &&& 1))
  let addr := addr >>> 1
  let r := r.setPORTD (ADDR_BIT r.PORTD 1 (addr &&& 1))
  let addr := addr >>> 1
  let r := r.setPORTD (ADDR_BIT r.PORTD 2 (addr &&& 1))
  let addr := addr >>> 1
  let r := r.setPORTD (ADDR_BIT r.PORTD 3 (addr &&& 1))
  let addr := addr >>> 1
  let r := r.setPORTC (ADDR_BIT r.PORTC 6 (addr &&& 1))
  let addr := addr >>> 1
  let r := r.setPORTC (ADDR_BIT r.PORTC 7 (addr &&& 1))
  let addr := addr >>> 1
  let r := r.setPORTD (ADDR_BIT r.PORTD 6 (addr &&& 1))
  let addr := addr >>> 1
  let r := r.setPORTD (ADDR_BIT r.PORTD 7 (addr &&& 1))
  r

/-- The macro `DATA_BIT(ID)` applied to the value of the register
`DATA_PORT_ID` and the pin number `DATA_PIN_ID`. -/
def DATA_BIT (port pin : Nat) : Nat :=
  if port &&& (1 <<< pin) ≠ 0 then 1 else 0

/-- What one scan iteration takes from outside: the levels of the input
registers once the settling delay is over (they stay put during the eight
reads of `read_byte`), and the previous content of the uninitialised buffer
`line[32]`. -/
structure Input where
  PINB : Nat
  PINC : Nat
  PIND : Nat
  PINF : Nat
  line : Nat → Nat

/-- The effect of `_delay_ms(1)` on the registers: the input registers take
the levels present on the pins. -/
def settle (r : Regs) (inp : Input) : Regs :=
  { r with PINB := inp.PINB % 256, PINC := inp.PINC % 256,
           PIND := inp.PIND % 256, PINF := inp.PINF % 256 }

/-- The second half of `read_byte`, lines 188-198: assemble the byte from the
eight data pins, most significant first. -/
def read_data (r : Regs) : Nat :=
  let b := 0
  let b := b ||| DATA_BIT r.PINB 5
  let b := (b <<< 1) % 256
  let b := b ||| DATA_BIT r.PINB 6
  let b := (b <<< 1) % 256
  let b := b ||| DATA_BIT r.PINF 7
  let b := (b <<< 1) % 256
  let b := b ||| DATA_BIT r.PINF 6
  let b := (b <<< 1) % 256
  let b := b ||| DATA_BIT r.PINF 5
  let b := (b <<< 1) % 256
  let b := b ||| DATA_BIT r.PINF 4
  let b := (b <<< 1) % 256
  let b := b ||| DATA_BIT r.PINF 1
  let b := (b <<< 1) % 256
  let b := b ||| DATA_BIT r.PINF 0
  b

/-- The function `read_byte` of the source: drive the address, wait, sample. -/
def read_byte (r : Regs) (addr : Nat) (inp : Input) : Regs × Nat :=
  let r := set_address r addr
  let r := settle r inp
  (r, read_data r)

/-! ## The scan loop (lines 260-301) -/

/-- Calls into the serial library and onto the bus, in program order. -/
inductive Event where
  | putchar (c : Nat)
  | read (addr : Nat) (byte : Nat)
  | write (bytes : List Nat)
deriving DecidableEq

/-- The flash string `PSTR("wrap\r\n")`, with its terminating NUL. -/
def wrap_msg : List Nat := [119, 114, 97, 112, 13, 10, 0]

/-- The function `send_str` of the source: one `usb_serial_putchar` per
character, up to the first NUL. -/
def send_str : List Nat → List Event
  | [] => []
  | c :: s => if c = 0 then [] else Event.putchar c :: send_str s

/-- Store into the buffer `line`: `line[i] = v`. -/
def store (line : Nat → Nat) (i v : Nat) : Nat → Nat :=
  fun j => if j = i then v else line j

/-- The call `usb_serial_write(line, i)`: the first `i` bytes of the buffer. -/
def usb_serial_write (line : Nat → Nat) (i : Nat) : Event :=
  Event.write ((List.range i).map line)

/-- Lines 272-285: fill the buffer and hand it to `usb_serial_write`. -/
def format_line (line : Nat → Nat) (addr byte : Nat) : Event :=
  let i := 0
  let line := store line i (hexdigit (addr >>> 12))
  let i := (i + 1) % 256
  let line := store line i (hexdigit (addr >>> 8))
  let i := (i + 1) % 256
  let line := store line i (hexdigit (addr >>> 4))
  let i := (i + 1) % 256
  let line := store line i (hexdigit (addr >>> 0))
  let i := (i + 1) % 256
  let line := store line i 61
  let i := (i + 1) % 256
  let line := store line i (hexdigit (byte >>> 4))
  let i := (i + 1) % 256
  let line := store line i (hexdigit (byte >>> 0))
  let i := (i + 1) % 256
  let line := store line i 32
  let i := (i + 1) % 256
  let line := store line i (if printable byte ≠ 0 then byte else 46)
  let i := (i + 1) % 256
  let line := store line i 13
  let i := (i + 1) % 256
  let line := store line i 10
  let i := (i + 1) % 256
  usb_serial_write line i

/-- The state of the scan loop: the counter `addr` and the registers. -/
structure State where
  addr : Nat
  regs : Regs
deriving DecidableEq

/-- One pass through the body of `while (1)`, lines 264-285. -/
def scan_iteration (s : State) (inp : Input) : State × List Event :=
  let addr := (s.addr + 1) % 65536
  let out := if addr = 0 then send_str wrap_msg else []
  let (regs, byte) := read_byte s.regs addr inp
  let out := out ++ [Event.read addr byte]
  if byte = 0 then
    ({ addr := addr, regs := regs }, out)
  else
    ({ addr := addr, regs := regs }, out ++ [format_line inp.line addr byte])

/-- The first `n` passes of `while (1)`; pass `k` takes its input from
`inp k`. -/
def scan_loop : Nat → State → (Nat → Input) → State × List Event
  | 0, s, _ => (s, [])
  | n + 1, s, inp =>
    let step := scan_iteration s (inp 0)
    let rest := scan_loop n step.1 (fun k => inp (k + 1))
    (rest.1, step.2 ++ rest.2)

/-! ## Pin configuration in `main` (lines 204-250) -/

/-- Lines 205-207: `CPU_PRESCALE(0); LED_CONFIG; LED_ON;`. -/
def led_setup (r : Regs) : Regs :=
  let r := r.setCLKPR 0x80
  let r := r.setCLKPR 0
  let r := r.setDDRD ((r.DDRD ||| (1 <<< 6)) % 256)
  let r := r.setPORTD ((r.PORTD ||| (1 <<< 6)) % 256)
  r

/-- Lines 229-250: `SET_DDR(0..12)` then `CLR_DDR(0..7)`, each expanded with
the register that `ADDR_DDR_n` or `DATA_DDR_n` names (for 11 and 12 that is
`PORTD`). -/
def configure_pins (r : Regs) : Regs :=
  let r := r.setDDRB (sbi r.DDRB 0)
  let r := r.setDDRB (sbi r.DDRB 1)
  let r := r.setDDRB (sbi r.DDRB 2)
  let r := r.setDDRB (sbi r.DDRB 3)
  let r := r.setDDRB (sbi r.DDRB 7)
  let r := r.setDDRD (sbi r.DDRD 0)
  let r := r.setDDRD (sbi r.DDRD 1)
  let r := r.setDDRD (sbi r.DDRD 2)
  let r := r.setDDRD (sbi r.DDRD 3)
  let r := r.setDDRC (sbi r.DDRC 6)
  let r := r.setDDRC (sbi r.DDRC 7)
  let r := r.setPORTD (sbi r.PORTD 6)
  let r := r.setPORTD (sbi r.PORTD 7)
  let r := r.setDDRF (cbi r.DDRF 0)
  let r := r.setDDRF (cbi r.DDRF 1)
  let r := r.setDDRF (cbi r.DDRF 4)
  let r := r.setDDRF (cbi r.DDRF 5)
  let r := r.setDDRF (cbi r.DDRF 6)
  let r := r.setDDRF (cbi r.DDRF 7)
  let r := r.setDDRB (cbi r.DDRB 6)
  let r := r.setDDRB (cbi r.DDRB 5)
  r

/-- The register writes of `main` before the scan loop, in program order.
The calls into the USB library between them do not touch these registers. -/
def main_setup (r : Regs) : Regs :=
  configure_pins (led_setup r)

/-- The registers after reset: every port and direction register is 0. -/
def reset_regs : Regs :=
  { CLKPR := 0, PORTB := 0, PORTC := 0, PORTD := 0, PORTF := 0,
    DDRB := 0, DDRC := 0, DDRD := 0, DDRF := 0,
    PINB := 0, PINC := 0, PIND := 0, PINF := 0 }

/-- An input with every pin low and a zeroed buffer. -/
def idle_input : Input :=
  { PINB := 0, PINC := 0, PIND := 0, PINF := 0, line := fun _ => 0 }

/-- An input whose data pins carry the byte 0x41: data pin 0 is `PINF` bit 0,
data pin 6 is `PINB` bit 6. -/
def letter_input : Input :=
  { PINB := 0x40, PINC := 0, PIND := 0, PINF := 0x01, line := fun _ => 0 }

/-! ## Observations on a trace and on the bus -/

/-- The payloads of the `usb_serial_write` calls of a trace: its data lines. -/
def written : List Event → List (List Nat)
  | [] => []
  | Event.write l :: es => l :: written es
  | _ :: es => written es

/-- The characters handed to `usb_serial_putchar` in a trace. -/
def sent : List Event → List Nat
  | [] => []
  | Event.putchar c :: es => c :: sent es
  | _ :: es => sent es

/-- The bytes of a `usb_serial_write` call; empty for any other event. -/
def payload : Event → List Nat
  | Event.write l => l
  | _ => []

/-- Everything a trace hands to the serial channel, bus reads left out. -/
def outputs : List Event → List Event
  | [] => []
  | Event.read _ _ :: es => outputs es
  | e :: es => e :: outputs es

/-- The level (0 or 1) of bit `pin` of a register. -/
def pin_level (port pin : Nat) : Nat :=
  if port.testBit pin then 1 else 0

/-- The number that the thirteen address pins carry, read off the output
registers through the pin map `ADDR_PORT_n` / `ADDR_PIN_n`. -/
def bus_address (r : Regs) : Nat :=
  pin_level r.PORTB 0 + 2 * pin_level r.PORTB 1 + 4 * pin_level r.PORTB 2 +
  8 * pin_level r.PORTB 3 + 16 * pin_level r.PORTB 7 + 32 * pin_level r.PORTD 0 +
  64 * pin_level r.PORTD 1 + 128 * pin_level r.PORTD 2 + 256 * pin_level r.PORTD 3 +
  512 * pin_level r.PORTC 6 + 1024 * pin_level r.PORTC 7 +
  2048 * pin_level r.PORTD 6 + 4096 * pin_level r.PORTD 7

/-! ## The specification's side of the line format -/

/-- The character codes of a text. -/
def ascii (s : String) : List Nat :=
  s.toList.map Char.toNat

/-- Specification: `n` rendered as `width` upper-case hexadecimal digits,
zero-padded on the left, most significant digit first (as character codes). -/
def spec_hex (width n : Nat) : List Nat :=
  let ds := (Nat.toDigits 16 n).map Char.toUpper
  (List.replicate (width - ds.length) '0' ++ ds).map Char.toNat

/-- Specification: the characters that are shown as themselves, `A-Z`, `a-z`,
`0-9` and the space. -/
def spec_shown : List Nat :=
  ascii "ABCDEFGHIJKLMNOPQRSTUVWXYZabcdefghijklmnopqrstuvwxyz0123456789 "

/-- Specification: the text of the wrap notice. -/
def wrap_text : List Nat :=
  ascii "wrap\r\n"

/-! ## The start of the scan and more observations -/

/-- Line 260: the counter starts at 0. -/
def scan_start (r : Regs) : State :=
  { addr := 0, regs := r }

/-- The counter values handed to `read_byte` in a trace. -/
def reads : List Event → List Nat
  | [] => []
  | Event.read a _ :: es => a :: reads es
  | _ :: es => reads es

/-! ## The specification's side of decoding a line -/

/-- Specification: the value of a hexadecimal digit character. -/
def hex_value (c : Nat) : Nat :=
  if 48 ≤ c ∧ c ≤ 57 then c - 48
  else if 65 ≤ c ∧ c ≤ 70 then c - 55
  else if 97 ≤ c ∧ c ≤ 102 then c - 87
  else 0

/-- Specification: a string of hexadecimal digits read as a number, most
significant digit first. -/
def decode_hex (cs : List Nat) : Nat :=
  cs.foldl (fun acc c => 16 * acc + hex_value c) 0

/-! ## The steps of `main` (lines 202-262) -/

/-- The registers that `main` writes bit by bit. -/
inductive Reg where
  | PORTD
  | DDRB
  | DDRC
  | DDRD
  | DDRF
deriving DecidableEq

/-- The steps of `main`, in program order: register writes, calls into the USB
library with what they return, and the events of the scan loop. -/
inductive Action where
  | clkpr (v : Nat)
  | set_bit (reg : Reg) (pin : Nat)
  | clear_bit (reg : Reg) (pin : Nat)
  | usb_init
  | usb_configured (ret : Nat)
  | delay_ms (ms : Nat)
  | get_control (ret : Nat)
  | flush_input
  | serial (e : Event)
  | scan (e : Event)
deriving DecidableEq

/-- The host as the program sees it: what the `k`-th call of `usb_configured()`
and the `k`-th call of `usb_serial_get_control()` return. -/
structure Host where
  configured : Nat → Nat
  control : Nat → Nat

/-- Line 214, `while (!usb_configured()) ;`: the calls from the `k`-th on, as
long as the fuel lasts. -/
def await_configured (h : Host) : Nat → Nat → Option (List Action)
  | 0, _ => none
  | fuel + 1, k =>
    if h.configured k % 256 ≠ 0 then
      some [Action.usb_configured (h.configured k % 256)]
    else
      match await_configured h fuel (k + 1) with
      | none => none
      | some w => some (Action.usb_configured (h.configured k % 256) :: w)

/-- Lines 219-220, `while (!(usb_serial_get_control() & USB_SERIAL_DTR))`;
the constant `USB_SERIAL_DTR` of `usb_serial.h` is the parameter `dtr`. -/
def await_dtr (dtr : Nat) (h : Host) : Nat → Nat → Option (List Action)
  | 0, _ => none
  | fuel + 1, k =>
    if (h.control k % 256) &&& dtr ≠ 0 then
      some [Action.get_control (h.control k % 256)]
    else
      match await_dtr dtr h fuel (k + 1) with
      | none => none
      | some w => some (Action.get_control (h.control k % 256) :: w)

/-- Lines 205-207 as steps: `CPU_PRESCALE(0); LED_CONFIG; LED_ON;`. -/
def led_actions : List Action :=
  [Action.clkpr 0x80, Action.clkpr 0, Action.set_bit Reg.DDRD 6, Action.set_bit Reg.PORTD 6]

/-- Lines 229-250 as steps: `SET_DDR(0..12)` and `CLR_DDR(0..7)`. -/
def config_actions : List Action :=
  [Action.set_bit Reg.DDRB 0, Action.set_bit Reg.DDRB 1, Action.set_bit Reg.DDRB 2,
   Action.set_bit Reg.DDRB 3, Action.set_bit Reg.DDRB 7, Action.set_bit Reg.DDRD 0,
   Action.set_bit Reg.DDRD 1, Action.set_bit Reg.DDRD 2, Action.set_bit Reg.DDRD 3,
   Action.set_bit Reg.DDRC 6, Action.set_bit Reg.DDRC 7, Action.set_bit Reg.PORTD 6,
   Action.set_bit Reg.PORTD 7,
   Action.clear_bit Reg.DDRF 0, Action.clear_bit Reg.DDRF 1, Action.clear_bit Reg.DDRF 4,
   Action.clear_bit Reg.DDRF 5, Action.clear_bit Reg.DDRF 6, Action.clear_bit Reg.DDRF 7,
   Action.clear_bit Reg.DDRB 6, Action.clear_bit Reg.DDRB 5]

/-- The flash string of line 258, with its terminating NUL. -/
def welcome_msg : List Nat :=
  ascii "\r\nRTTY decoder\r\n" ++ [0]

/-- The function `main` of the source with `n` passes of its scan loop:
the steps it takes from the registers `r`, or `none` when the fuel runs out
in one of the two polling loops. -/
def main (dtr fuel : Nat) (h : Host) (r : Regs) (n : Nat) (inp : Nat → Input) :
    Option (List Action) :=
  match await_configured h fuel 0 with
  | none => none
  | some w1 =>
    match await_dtr dtr h fuel 0 with
    | none => none
    | some w2 =>
      some (led_actions ++ [Action.usb_init] ++ w1 ++ [Action.delay_ms 1000] ++ w2 ++
        config_actions ++ [Action.flush_input] ++
        (send_str welcome_msg).map Action.serial ++
        (scan_loop n (scan_start (main_setup r)) inp).2.map Action.scan)

/-- The effect of a register write of `main` on the registers. -/
def Action.apply (r : Regs) : Action → Regs
  | Action.clkpr v => r.setCLKPR v
  | Action.set_bit Reg.PORTD pin => r.setPORTD (sbi r.PORTD pin)
  | Action.set_bit Reg.DDRB pin => r.setDDRB (sbi r.DDRB pin)
  | Action.set_bit Reg.DDRC pin => r.setDDRC (sbi r.DDRC pin)
  | Action.set_bit Reg.DDRD pin => r.setDDRD (sbi r.DDRD pin)
  | Action.set_bit Reg.DDRF pin => r.setDDRF (sbi r.DDRF pin)
  | Action.clear_bit Reg.PORTD pin => r.setPORTD (cbi r.PORTD pin)
  | Action.clear_bit Reg.DDRB pin => r.setDDRB (cbi r.DDRB pin)
  | Action.clear_bit Reg.DDRC pin => r.setDDRC (cbi r.DDRC pin)
  | Action.clear_bit Reg.DDRD pin => r.setDDRD (cbi r.DDRD pin)
  | Action.clear_bit Reg.DDRF pin => r.setDDRF (cbi r.DDRF pin)
  | _ => r

/-- The direction bit of each bus pin: the thirteen address pins, then the
eight data pins. -/
def bus_direction_bits : List (Reg × Nat) :=
  [(Reg.DDRB, 0), (Reg.DDRB, 1), (Reg.DDRB, 2), (Reg.DDRB, 3), (Reg.DDRB, 7),
   (Reg.DDRD, 0), (Reg.DDRD, 1), (Reg.DDRD, 2), (Reg.DDRD, 3), (Reg.DDRC, 6),
   (Reg.DDRC, 7), (Reg.DDRD, 6), (Reg.DDRD, 7),
   (Reg.DDRF, 0), (Reg.DDRF, 1), (Reg.DDRF, 4), (Reg.DDRF, 5), (Reg.DDRF, 6),
   (Reg.DDRF, 7), (Reg.DDRB, 6), (Reg.DDRB, 5)]

/-- A step that writes the direction bit of an address or data pin. -/
def Action.sets_direction : Action → Bool
  | Action.set_bit reg pin => decide ((reg, pin) ∈ bus_direction_bits)
  | Action.clear_bit reg pin => decide ((reg, pin) ∈ bus_direction_bits)
  | _ => false

/-- A step of one of the two polling loops. -/
def Action.is_poll : Action → Bool
  | Action.usb_configured _ => true
  | Action.get_control _ => true
  | _ => false

/-- A step of the scan loop. -/
def Action.is_scan : Action → Bool
  | Action.scan _ => true
  | _ => false

/-- A host that is configured and has DTR set from the first call on. -/
def ready_host : Host :=
  { configured := fun _ => 1, control := fun _ => 1 }

/-! ## Lemmas: hexadecimal rendering -/

theorem hexdigit_eq_digitChar (x : Nat) :
    hexdigit x = (Nat.digitChar (x % 16)).toUpper.toNat := by
  have hand : (x % 256) &&& 0xF = x % 16 := by
    have := Nat.and_pow_two_sub_one_eq_mod (x % 256) 4
    norm_num at this
    omega
  unfold hexdigit
  simp only [hand]
  have hlt : x % 16 < 16 := Nat.mod_lt _ (by decide)
  generalize x % 16 = d at hlt
  interval_cases d <;> decide

theorem toDigitsCore_four (f n : Nat) (ds : List Char) (hn : n < 65536) :
    Nat.toDigitsCore 16 (f + 4) n ds =
      if n < 16 then Nat.digitChar n :: ds
      else if n < 256 then Nat.digitChar (n / 16) :: Nat.digitChar (n % 16) :: ds
      else if n < 4096 then
        Nat.digitChar (n / 256) :: Nat.digitChar (n / 16 % 16) :: Nat.digitChar (n % 16) :: ds
      else
        Nat.digitChar (n / 4096) :: Nat.digitChar (n / 256 % 16) ::
          Nat.digitChar (n / 16 % 16) :: Nat.digitChar (n % 16) :: ds := by
  simp only [Nat.toDigitsCore]
  have e1 : n / 16 / 16 = n / 256 := by omega
  have e2 : n / 16 / 16 / 16 = n / 4096 := by omega
  by_cases h1 : n < 16
  · have : n / 16 = 0 := by omega
    have h' : n % 16 = n := by omega
    simp [h1, this, h']
  · by_cases h2 : n < 256
    · have a1 : n / 16 ≠ 0 := by omega
      have a2 : n / 16 / 16 = 0 := by omega
      have a3 : n / 16 % 16 = n / 16 := by omega
      simp [h1, h2, a1, a2, a3]
    · by_cases h3 : n < 4096
      · have a1 : n / 16 ≠ 0 := by omega
        have a2 : n / 16 / 16 ≠ 0 := by omega
        have a3 : n / 16 / 16 / 16 = 0 := by omega
        have a4 : n / 16 / 16 % 16 = n / 256 := by omega
        simp [h1, h2, h3, a1, a2, a3, a4]
      · have a1 : n / 16 ≠ 0 := by omega
        have a2 : n / 16 / 16 ≠ 0 := by omega
        have a3 : n / 16 / 16 / 16 ≠ 0 := by omega
        have a4 : n / 16 / 16 / 16 / 16 = 0 := by omega
        have a5 : n / 16 / 16 / 16 % 16 = n / 4096 := by omega
        have a6 : n / 16 / 16 % 16 = n / 256 % 16 := by omega
        simp [h1, h2, h3, a1, a2, a3, a4, a5, a6]

theorem toDigits_lt_65536 (n : Nat) (hn : n < 65536) :
    Nat.toDigits 16 n =
      if n < 16 then [Nat.digitChar n]
      else if n < 256 then [Nat.digitChar (n / 16), Nat.digitChar (n % 16)]
      else if n < 4096 then
        [Nat.digitChar (n / 256), Nat.digitChar (n / 16 % 16), Nat.digitChar (n % 16)]
      else
        [Nat.digitChar (n / 4096), Nat.digitChar (n / 256 % 16),
          Nat.digitChar (n / 16 % 16), Nat.digitChar (n % 16)] := by
  by_cases h3 : n < 3
  · interval_cases n <;> decide
  · obtain ⟨m, rfl⟩ : ∃ m, n = m + 3 := ⟨n - 3, by omega⟩
    exact toDigitsCore_four m (m + 3) [] hn

theorem digitChar_zero_upper : (Nat.digitChar 0).toUpper.toNat = 48 := by decide

theorem spec_hex_four (n : Nat) (hn : n < 65536) :
    spec_hex 4 n =
      [hexdigit (n >>> 12), hexdigit (n >>> 8), hexdigit (n >>> 4), hexdigit (n >>> 0)] := by
  simp only [spec_hex, toDigits_lt_65536 n hn, hexdigit_eq_digitChar, Nat.shiftRight_eq_div_pow]
  by_cases h1 : n < 16
  · have a1 : n / 4096 % 16 = 0 := by omega
    have a2 : n / 256 % 16 = 0 := by omega
    have a3 : n / 16 % 16 = 0 := by omega
    have a4 : n % 16 = n := by omega
    simp [h1, a1, a2, a3, a4, digitChar_zero_upper]
  · by_cases h2 : n < 256
    · have a1 : n / 4096 % 16 = 0 := by omega
      have a2 : n / 256 % 16 = 0 := by omega
      have a3 : n / 16 % 16 = n / 16 := by omega
      simp [h1, h2, a1, a2, a3, digitChar_zero_upper]
    · by_cases h3 : n < 4096
      · have a1 : n / 4096 % 16 = 0 := by omega
        have a2 : n / 256 % 16 = n / 256 := by omega
        simp [h1, h2, h3, a1, a2, digitChar_zero_upper]
      · have a1 : n / 4096 % 16 = n / 4096 := by omega
        simp [h1, h2, h3, a1]

theorem spec_hex_two (n : Nat) (hn : n < 256) :
    spec_hex 2 n = [hexdigit (n >>> 4), hexdigit (n >>> 0)] := by
  simp only [spec_hex, toDigits_lt_65536 n (by omega), hexdigit_eq_digitChar,
    Nat.shiftRight_eq_div_pow]
  by_cases h1 : n < 16
  · have a3 : n / 16 % 16 = 0 := by omega
    have a4 : n % 16 = n := by omega
    simp [h1, a3, a4, digitChar_zero_upper]
  · have a3 : n / 16 % 16 = n / 16 := by omega
    simp [h1, hn, a3]

/-! ## Lemmas: the line buffer and the character rule -/

theorem format_line_eq (line : Nat → Nat) (addr byte : Nat) :
    format_line line addr byte =
      Event.write [hexdigit (addr >>> 12), hexdigit (addr >>> 8), hexdigit (addr >>> 4),
        hexdigit (addr >>> 0), 61, hexdigit (byte >>> 4), hexdigit (byte >>> 0), 32,
        (if printable byte ≠ 0 then byte else 46), 13, 10] := by
  simp [format_line, usb_serial_write, store, List.range, List.range.loop]

set_option maxRecDepth 100000 in
theorem printable_iff_shown : ∀ b, b < 256 → (printable b ≠ 0 ↔ b ∈ spec_shown) := by
  decide

set_option maxRecDepth 100000 in
theorem printable_count :
    ((List.range 256).filter (fun b => decide (printable b ≠ 0))).length = 63 := by
  decide

/-! ## Lemmas: register bits -/

theorem testBit_sbi (p k j : Nat) (hk : k < 8) :
    (sbi p k).testBit j = (decide (j < 8) && (decide (j = k) || p.testBit j)) := by
  unfold sbi
  rw [show (256 : Nat) = 2 ^ 8 by norm_num, Nat.testBit_mod_two_pow, Nat.testBit_or,
    Nat.one_shiftLeft, Nat.testBit_two_pow]
  have e : decide (k = j) = decide (j = k) := by
    by_cases h : j = k
    · subst h; simp
    · have h' : ¬ k = j := fun e => h e.symm
      simp [h, h']
  rw [e, Bool.or_comm]

theorem testBit_cbi (p k j : Nat) (hk : k < 8) :
    (cbi p k).testBit j = (decide (j < 8) && (!decide (j = k) && p.testBit j)) := by
  unfold cbi
  have h256 : (1 <<< k) % 256 = 2 ^ k := by
    rw [Nat.one_shiftLeft]
    apply Nat.mod_eq_of_lt
    calc 2 ^ k < 2 ^ 8 := Nat.pow_lt_pow_right (by norm_num) hk
      _ = 256 := by norm_num
  rw [h256, Nat.testBit_and, Nat.testBit_xor, show (0xFF : Nat) = 2 ^ 8 - 1 by norm_num,
    Nat.testBit_two_pow_sub_one, Nat.testBit_two_pow]
  by_cases h : j = k
  · subst h; simp [hk]
  · have h' : ¬ k = j := fun e => h e.symm
    by_cases h8 : j < 8 <;> simp [h, h', h8]

theorem bit_ne_zero (a k : Nat) : decide ((a >>> k) &&& 1 ≠ 0) = a.testBit k := by
  rw [Nat.testBit_to_div_mod, Nat.shiftRight_eq_div_pow, Nat.and_one_is_mod]
  have : a / 2 ^ k % 2 < 2 := Nat.mod_lt _ (by decide)
  by_cases h : a / 2 ^ k % 2 = 1
  · simp [h]
  · have : a / 2 ^ k % 2 = 0 := by omega
    simp [this]

theorem testBit_ADDR_BIT (p k a i j : Nat) (hk : k < 8) :
    (ADDR_BIT p k ((a >>> i) &&& 1)).testBit j =
      (decide (j < 8) && (if j = k then a.testBit i else p.testBit j)) := by
  unfold ADDR_BIT
  have hb := bit_ne_zero a i
  by_cases h : (a >>> i) &&& 1 ≠ 0
  · rw [if_pos h, testBit_sbi _ _ _ hk]
    have : a.testBit i = true := by rw [← hb]; exact decide_eq_true h
    by_cases hj : j = k <;> simp [hj, this]
  · rw [if_neg h, testBit_cbi _ _ _ hk]
    have : a.testBit i = false := by rw [← hb]; exact decide_eq_false h
    by_cases hj : j = k <;> simp [hj, this]

theorem set_address_eq (r : Regs) (a : Nat) :
    set_address r a =
      { r with
        PORTB := ADDR_BIT (ADDR_BIT (ADDR_BIT (ADDR_BIT (ADDR_BIT r.PORTB 0 ((a >>> 0) &&& 1))
          1 ((a >>> 1) &&& 1)) 2 ((a >>> 2) &&& 1)) 3 ((a >>> 3) &&& 1)) 7 ((a >>> 4) &&& 1),
        PORTC := ADDR_BIT (ADDR_BIT r.PORTC 6 ((a >>> 9) &&& 1)) 7 ((a >>> 10) &&& 1),
        PORTD := ADDR_BIT (ADDR_BIT (ADDR_BIT (ADDR_BIT (ADDR_BIT (ADDR_BIT r.PORTD
          0 ((a >>> 5) &&& 1)) 1 ((a >>> 6) &&& 1)) 2 ((a >>> 7) &&& 1)) 3 ((a >>> 8) &&& 1))
          6 ((a >>> 11) &&& 1)) 7 ((a >>> 12) &&& 1) } := by
  simp only [set_address, Regs.setPORTB, Regs.setPORTC, Regs.setPORTD, ← Nat.shiftRight_add,
    Nat.shiftRight_zero]

theorem set_address_bits (r : Regs) (a : Nat) :
    (set_address r a).PORTB.testBit 0 = a.testBit 0 ∧
    (set_address r a).PORTB.testBit 1 = a.testBit 1 ∧
    (set_address r a).PORTB.testBit 2 = a.testBit 2 ∧
    (set_address r a).PORTB.testBit 3 = a.testBit 3 ∧
    (set_address r a).PORTB.testBit 7 = a.testBit 4 ∧
    (set_address r a).PORTD.testBit 0 = a.testBit 5 ∧
    (set_address r a).PORTD.testBit 1 = a.testBit 6 ∧
    (set_address r a).PORTD.testBit 2 = a.testBit 7 ∧
    (set_address r a).PORTD.testBit 3 = a.testBit 8 ∧
    (set_address r a).PORTC.testBit 6 = a.testBit 9 ∧
    (set_address r a).PORTC.testBit 7 = a.testBit 10 ∧
    (set_address r a).PORTD.testBit 6 = a.testBit 11 ∧
    (set_address r a).PORTD.testBit 7 = a.testBit 12 := by
  rw [set_address_eq]
  simp only [testBit_ADDR_BIT, Nat.reduceLT, Nat.reduceEqDiff, decide_True, Bool.true_and, if_true, if_false, and_self]

theorem pin_level_eq (x i : Nat) : pin_level x i = x / 2 ^ i % 2 := by
  unfold pin_level
  rw [Nat.testBit_to_div_mod]
  have : x / 2 ^ i % 2 < 2 := Nat.mod_lt _ (by decide)
  by_cases h : x / 2 ^ i % 2 = 1
  · simp [h]
  · have : x / 2 ^ i % 2 = 0 := by omega
    simp [this]

theorem bus_address_set_address (r : Regs) (a : Nat) :
    bus_address (set_address r a) = a % 8192 := by
  obtain ⟨h0, h1, h2, h3, h4, h5, h6, h7, h8, h9, h10, h11, h12⟩ := set_address_bits r a
  unfold bus_address pin_level
  rw [h0, h1, h2, h3, h4, h5, h6, h7, h8, h9, h10, h11, h12]
  have e := fun i => pin_level_eq a i
  unfold pin_level at e
  simp only [e]
  norm_num
  omega


/-! ## Lemmas: the data pins -/

theorem DATA_BIT_eq (port pin : Nat) : DATA_BIT port pin = pin_level port pin := by
  unfold DATA_BIT pin_level
  by_cases h : port.testBit pin
  · have : port &&& 1 <<< pin ≠ 0 := by
      intro h0
      have := congrArg (fun x => x.testBit pin) h0
      simp [Nat.testBit_and, Nat.testBit_shiftLeft, h] at this
    simp [h, this]
  · have : port &&& 1 <<< pin = 0 := by
      apply Nat.eq_of_testBit_eq
      intro i
      simp only [Nat.testBit_and, Nat.one_shiftLeft, Nat.testBit_two_pow, Nat.zero_testBit]
      by_cases hi : pin = i
      · subst hi; simp [h]
      · simp [hi]
    simp [h, this]

theorem pin_level_le (p k : Nat) : pin_level p k = 0 ∨ pin_level p k = 1 := by
  unfold pin_level; split <;> simp

theorem read_data_eq (r : Regs) :
    read_data r =
      pin_level r.PINF 0 + 2 * pin_level r.PINF 1 + 4 * pin_level r.PINF 4 +
      8 * pin_level r.PINF 5 + 16 * pin_level r.PINF 6 + 32 * pin_level r.PINF 7 +
      64 * pin_level r.PINB 6 + 128 * pin_level r.PINB 5 := by
  simp only [read_data, DATA_BIT_eq]
  rcases pin_level_le r.PINF 0 with a0 | a0 <;> rcases pin_level_le r.PINF 1 with a1 | a1 <;>
  rcases pin_level_le r.PINF 4 with a2 | a2 <;> rcases pin_level_le r.PINF 5 with a3 | a3 <;>
  rcases pin_level_le r.PINF 6 with a4 | a4 <;> rcases pin_level_le r.PINF 7 with a5 | a5 <;>
  rcases pin_level_le r.PINB 6 with a6 | a6 <;> rcases pin_level_le r.PINB 5 with a7 | a7 <;>
  rw [a0, a1, a2, a3, a4, a5, a6, a7] <;> rfl

theorem read_data_lt (r : Regs) : read_data r < 256 := by
  rw [read_data_eq]
  rcases pin_level_le r.PINF 0 with a0 | a0 <;> rcases pin_level_le r.PINF 1 with a1 | a1 <;>
  rcases pin_level_le r.PINF 4 with a2 | a2 <;> rcases pin_level_le r.PINF 5 with a3 | a3 <;>
  rcases pin_level_le r.PINF 6 with a4 | a4 <;> rcases pin_level_le r.PINF 7 with a5 | a5 <;>
  rcases pin_level_le r.PINB 6 with a6 | a6 <;> rcases pin_level_le r.PINB 5 with a7 | a7 <;>
  omega

theorem testBit_sum8 (b0 b1 b2 b3 b4 b5 b6 b7 : Bool) :
    let v := b0.toNat + 2 * b1.toNat + 4 * b2.toNat + 8 * b3.toNat + 16 * b4.toNat +
      32 * b5.toNat + 64 * b6.toNat + 128 * b7.toNat
    v.testBit 0 = b0 ∧ v.testBit 1 = b1 ∧ v.testBit 2 = b2 ∧ v.testBit 3 = b3 ∧
    v.testBit 4 = b4 ∧ v.testBit 5 = b5 ∧ v.testBit 6 = b6 ∧ v.testBit 7 = b7 := by
  revert b0 b1 b2 b3 b4 b5 b6 b7
  decide

theorem pin_level_toNat (p k : Nat) : pin_level p k = (p.testBit k).toNat := by
  unfold pin_level; cases p.testBit k <;> rfl

theorem read_data_bits (r : Regs) :
    (read_data r).testBit 0 = r.PINF.testBit 0 ∧ (read_data r).testBit 1 = r.PINF.testBit 1 ∧
    (read_data r).testBit 2 = r.PINF.testBit 4 ∧ (read_data r).testBit 3 = r.PINF.testBit 5 ∧
    (read_data r).testBit 4 = r.PINF.testBit 6 ∧ (read_data r).testBit 5 = r.PINF.testBit 7 ∧
    (read_data r).testBit 6 = r.PINB.testBit 6 ∧ (read_data r).testBit 7 = r.PINB.testBit 5 := by
  rw [read_data_eq]
  simp only [pin_level_toNat]
  exact testBit_sum8 _ _ _ _ _ _ _ _

theorem testBit_mod_256 (x k : Nat) (hk : k < 8) : (x % 256).testBit k = x.testBit k := by
  rw [show (256 : Nat) = 2 ^ 8 by norm_num, Nat.testBit_mod_two_pow]
  simp [hk]

theorem testBit_and_mask (x m k : Nat) (hm : m.testBit k = true) :
    (x &&& m).testBit k = x.testBit k := by
  simp [Nat.testBit_and, hm]

/-! ## Lemmas: one scan iteration -/

theorem send_str_wrap_msg : send_str wrap_msg = wrap_text.map Event.putchar := by
  decide

theorem sent_map_putchar (l : List Nat) : sent (l.map Event.putchar) = l := by
  induction l with
  | nil => rfl
  | cons c l ih => simp [sent, ih]

theorem sent_append (xs ys : List Event) : sent (xs ++ ys) = sent xs ++ sent ys := by
  induction xs with
  | nil => rfl
  | cons e xs ih => cases e <;> simp [sent, ih]

theorem written_append (xs ys : List Event) :
    written (xs ++ ys) = written xs ++ written ys := by
  induction xs with
  | nil => rfl
  | cons e xs ih => cases e <;> simp [written, ih]

theorem outputs_append (xs ys : List Event) :
    outputs (xs ++ ys) = outputs xs ++ outputs ys := by
  induction xs with
  | nil => rfl
  | cons e xs ih => cases e <;> simp [outputs, ih]

theorem written_map_putchar (l : List Nat) : written (l.map Event.putchar) = [] := by
  induction l with
  | nil => rfl
  | cons c l ih => simp [written, ih]

theorem outputs_map_putchar (l : List Nat) :
    outputs (l.map Event.putchar) = l.map Event.putchar := by
  induction l with
  | nil => rfl
  | cons c l ih => simp [outputs, ih]

/-- The trace and the state of one iteration, spelled out. -/
theorem scan_iteration_eq (s : State) (inp : Input) :
    scan_iteration s inp =
      ({ addr := (s.addr + 1) % 65536,
         regs := (read_byte s.regs ((s.addr + 1) % 65536) inp).1 },
       (if (s.addr + 1) % 65536 = 0 then wrap_text.map Event.putchar else []) ++
       Event.read ((s.addr + 1) % 65536) (read_byte s.regs ((s.addr + 1) % 65536) inp).2 ::
       (if (read_byte s.regs ((s.addr + 1) % 65536) inp).2 = 0 then []
        else [format_line inp.line ((s.addr + 1) % 65536)
          (read_byte s.regs ((s.addr + 1) % 65536) inp).2])) := by
  unfold scan_iteration
  rw [send_str_wrap_msg]
  by_cases hb : (read_byte s.regs ((s.addr + 1) % 65536) inp).2 = 0 <;>
    simp only [hb, if_true, if_false, List.append_assoc, List.singleton_append]

/-! ## Lemmas: the trace of several iterations -/

theorem wrap_text_ne_nil : wrap_text ≠ [] := by decide

theorem sent_map_write (l : List (List Nat)) : sent (l.map Event.write) = [] := by
  induction l with
  | nil => rfl
  | cons c l ih => simp [sent, ih]

theorem sent_scan_iteration (s : State) (inp : Input) :
    sent (scan_iteration s inp).2 = if (s.addr + 1) % 65536 = 0 then wrap_text else [] := by
  rw [scan_iteration_eq]
  generalize wrap_text = w
  generalize (s.addr + 1) % 65536 = a
  generalize (read_byte s.regs a inp).2 = b
  by_cases hb : b = 0 <;> by_cases h0 : a = 0 <;>
    simp [hb, h0, sent, sent_append, sent_map_putchar, format_line_eq]

theorem bus_address_settle (r : Regs) (inp : Input) :
    bus_address (settle r inp) = bus_address r := by
  simp only [bus_address, settle]

theorem scan_iteration_addr (s : State) (inp : Input) :
    (scan_iteration s inp).1.addr = (s.addr + 1) % 65536 := by
  rw [scan_iteration_eq]

theorem scan_iteration_bus (s : State) (inp : Input) :
    bus_address (scan_iteration s inp).1.regs = (s.addr + 1) % 8192 := by
  rw [scan_iteration_eq]
  simp only [read_byte, bus_address_settle, bus_address_set_address]
  omega

theorem scan_loop_succ (n : Nat) (s : State) (inp : Nat → Input) :
    scan_loop (n + 1) s inp =
      ((scan_loop n (scan_iteration s (inp 0)).1 (fun k => inp (k + 1))).1,
       (scan_iteration s (inp 0)).2 ++
        (scan_loop n (scan_iteration s (inp 0)).1 (fun k => inp (k + 1))).2) := by
  rw [scan_loop]

theorem scan_loop_succ_addr (n : Nat) :
    ∀ (s : State) (inp : Nat → Input),
      (scan_loop (n + 1) s inp).1.addr = (s.addr + n + 1) % 65536 ∧
      bus_address (scan_loop (n + 1) s inp).1.regs = (s.addr + n + 1) % 8192 := by
  induction n with
  | zero =>
    intro s inp
    rw [scan_loop_succ, scan_loop]
    exact ⟨scan_iteration_addr s (inp 0), scan_iteration_bus s (inp 0)⟩
  | succ n ih =>
    intro s inp
    have h := ih (scan_iteration s (inp 0)).1 (fun k => inp (k + 1))
    rw [scan_loop_succ]
    rw [scan_iteration_addr] at h
    obtain ⟨h1, h2⟩ := h
    refine ⟨?_, ?_⟩
    · show (scan_loop (n + 1) (scan_iteration s (inp 0)).1 (fun k => inp (k + 1))).1.addr = _
      rw [h1]; omega
    · show bus_address
        (scan_loop (n + 1) (scan_iteration s (inp 0)).1 (fun k => inp (k + 1))).1.regs = _
      rw [h2]; omega

/-! ## The claims -/

/-- Claim C1. Whatever the counter, an iteration that samples a non-zero byte
writes one line of exactly 11 bytes: the four upper-case hex digits of the
counter after the increment, `=`, the two upper-case hex digits of the byte
(high nibble first), a space, the character field, carriage return and line
feed.  For address 0x0001 and byte 0x41 the line is `0001=41 A` followed by
carriage return and line feed. -/
theorem scan_line_format (s : State) (inp : Input)
    (h : (read_byte s.regs ((s.addr + 1) % 65536) inp).2 ≠ 0) :
    written (scan_iteration s inp).2 =
      [spec_hex 4 ((s.addr + 1) % 65536) ++ ascii "=" ++
        spec_hex 2 (read_byte s.regs ((s.addr + 1) % 65536) inp).2 ++ ascii " " ++
        [if printable (read_byte s.regs ((s.addr + 1) % 65536) inp).2 ≠ 0
          then (read_byte s.regs ((s.addr + 1) % 65536) inp).2 else '.'.toNat] ++
        ascii "\r\n"] ∧
    (written (scan_iteration s inp).2).map List.length = [11] ∧
    format_line inp.line 0x0001 0x41 = Event.write (ascii "0001=41 A\r\n") := by
  have hlt : (read_byte s.regs ((s.addr + 1) % 65536) inp).2 < 256 := read_data_lt _
  have ha : (s.addr + 1) % 65536 < 65536 := Nat.mod_lt _ (by decide)
  have e1 : ascii "=" = [61] := by decide
  have e2 : ascii " " = [32] := by decide
  have e3 : ascii "\r\n" = [13, 10] := by decide
  have e4 : '.'.toNat = 46 := by decide
  rw [scan_iteration_eq, spec_hex_four _ ha, spec_hex_two _ hlt, e1, e2, e3, e4]
  simp only [written_append, if_neg h, format_line_eq]
  refine ⟨?_, ?_, ?_⟩
  · by_cases h0 : (s.addr + 1) % 65536 = 0 <;> simp [h0, written, written_map_putchar]
  · by_cases h0 : (s.addr + 1) % 65536 = 0 <;> simp [h0, written, written_map_putchar]
  · decide

/-- Witness for C1: from counter 0 with the pins carrying 0x41 the sampled
byte is non-zero and the iteration writes the line of the example. -/
theorem scan_line_format_witness :
    (read_byte reset_regs ((0 + 1) % 65536) letter_input).2 ≠ 0 ∧
    written (scan_iteration { addr := 0, regs := reset_regs } letter_input).2 =
      [ascii "0001=41 A\r\n"] :=
  ⟨by decide,
   (scan_line_format { addr := 0, regs := reset_regs } letter_input (by decide)).1.trans
     (by decide)⟩

/-- Claim C2. For every address in 0..8191 the first four characters of the
line are the address rendered as four upper-case hex digits, zero-padded, most
significant first. -/
theorem address_field (line : Nat → Nat) (addr byte : Nat) (h : addr ≤ 8191) :
    (payload (format_line line addr byte)).take 4 = spec_hex 4 addr := by
  rw [format_line_eq, spec_hex_four addr (by omega)]
  simp [payload]

/-- Witness for C2: address 0x1FFF is in range and its field reads `1FFF`. -/
theorem address_field_witness :
    0x1FFF ≤ 8191 ∧
    (payload (format_line idle_input.line 0x1FFF 0x41)).take 4 = ascii "1FFF" :=
  ⟨by decide, (address_field idle_input.line 0x1FFF 0x41 (by decide)).trans (by decide)⟩

/-- Claim C3. For every byte in 0..255 the character field (position 8 of the
line) is the byte itself when it is one of `A-Z`, `a-z`, `0-9` or the space,
and `.` otherwise; `printable` is non-zero for exactly those byte values, and
there are 63 of them. -/
theorem char_field_rule (line : Nat → Nat) (addr b : Nat) (hb : b ≤ 255) :
    (payload (format_line line addr b)).getD 8 0 = (if b ∈ spec_shown then b else '.'.toNat) ∧
    (printable b ≠ 0 ↔ b ∈ spec_shown) ∧
    ((List.range 256).filter (fun x => decide (printable x ≠ 0))).length = 63 ∧
    spec_shown.length = 63 ∧ spec_shown.Nodup := by
  have h := printable_iff_shown b (by omega)
  refine ⟨?_, h, printable_count, by decide, by decide⟩
  rw [format_line_eq]
  by_cases hp : printable b ≠ 0
  · simp [payload, hp, h.mp hp]
  · have : b ∉ spec_shown := fun hm => hp (h.mpr hm)
    simp [payload, hp, this]

/-- Witness for C3: byte 0x41 is in range and is shown as itself. -/
theorem char_field_rule_witness :
    0x41 ≤ 255 ∧ (payload (format_line idle_input.line 1 0x41)).getD 8 0 = 'A'.toNat :=
  ⟨by decide, (char_field_rule idle_input.line 1 0x41 (by decide)).1.trans (by decide)⟩

/-- Claim C4. An iteration whose sampled byte is 0 writes no data line, and
what it hands to the serial channel is the wrap notice or nothing; an
iteration whose sampled byte is non-zero writes exactly one data line. -/
theorem scan_iteration_data_lines (s : State) (inp : Input) :
    if (read_byte s.regs ((s.addr + 1) % 65536) inp).2 = 0 then
      written (scan_iteration s inp).2 = [] ∧
      outputs (scan_iteration s inp).2 =
        (if (s.addr + 1) % 65536 = 0 then wrap_text.map Event.putchar else [])
    else
      written (scan_iteration s inp).2 =
        [payload (format_line inp.line ((s.addr + 1) % 65536)
          (read_byte s.regs ((s.addr + 1) % 65536) inp).2)] := by
  rw [scan_iteration_eq]
  generalize wrap_text = w
  by_cases hb : (read_byte s.regs ((s.addr + 1) % 65536) inp).2 = 0
  · simp only [hb, if_true]
    by_cases h0 : (s.addr + 1) % 65536 = 0 <;>
      simp [h0, written, outputs, written_append, outputs_append, written_map_putchar,
        outputs_map_putchar]
  · simp only [hb, if_false, format_line_eq]
    by_cases h0 : (s.addr + 1) % 65536 = 0 <;>
      simp [h0, written, payload, written_append, written_map_putchar]

/-- Counterexample to C5 as stated: from counter 8191 the next iteration
leaves the counter at 8192, outside 0..8191, and sends no wrap notice. -/
theorem wrap_at_8191_fails :
    (scan_iteration { addr := 8191, regs := reset_regs } idle_input).1.addr = 8192 ∧
    ¬ (scan_iteration { addr := 8191, regs := reset_regs } idle_input).1.addr ≤ 8191 ∧
    sent (scan_iteration { addr := 8191, regs := reset_regs } idle_input).2 = [] ∧
    sent (scan_iteration { addr := 8191, regs := reset_regs } idle_input).2 ≠ wrap_text := by
  decide

/-- Claim C5, amended. The counter is a 16-bit counter: every iteration
replaces it by its successor modulo 65536, so it stays in 0..65535; from 65535
the increment gives 0 and the iteration sends the wrap notice exactly once;
from 8191 the increment gives 8192 and nothing is sent by `send_str`. -/
theorem counter_sixteen_bit (s : State) (regs : Regs) (inp : Input) :
    (scan_iteration s inp).1.addr = (s.addr + 1) % 65536 ∧
    (scan_iteration s inp).1.addr ≤ 65535 ∧
    (scan_iteration { addr := 65535, regs := regs } inp).1.addr = 0 ∧
    sent (scan_iteration { addr := 65535, regs := regs } inp).2 = wrap_text ∧
    (scan_iteration { addr := 8191, regs := regs } inp).1.addr = 8192 ∧
    sent (scan_iteration { addr := 8191, regs := regs } inp).2 = [] := by
  refine ⟨?_, ?_, ?_, ?_, ?_, ?_⟩
  · rw [scan_iteration_eq]
  · rw [scan_iteration_eq]
    have : (s.addr + 1) % 65536 < 65536 := Nat.mod_lt _ (by decide)
    show (s.addr + 1) % 65536 ≤ 65535
    omega
  · simp [scan_iteration_eq]
  · simp [sent_scan_iteration]
  · simp [scan_iteration_eq]
  · simp [sent_scan_iteration]

/-- Claim C6. In every iteration the wrap notice is sent if and only if the
counter after the increment is 0; it is sent exactly once; and it precedes the
read of that address, which precedes every data line of the iteration. -/
theorem wrap_notice_order (s : State) (inp : Input) :
    (sent (scan_iteration s inp).2 = wrap_text ↔ (scan_iteration s inp).1.addr = 0) ∧
    sent (scan_iteration s inp).2 =
      (if (scan_iteration s inp).1.addr = 0 then wrap_text else []) ∧
    (scan_iteration s inp).2 =
      (sent (scan_iteration s inp).2).map Event.putchar ++
      Event.read (scan_iteration s inp).1.addr
          (read_byte s.regs (scan_iteration s inp).1.addr inp).2 ::
        (written (scan_iteration s inp).2).map Event.write := by
  have ha : (scan_iteration s inp).1.addr = (s.addr + 1) % 65536 := by rw [scan_iteration_eq]
  have hs := sent_scan_iteration s inp
  rw [ha, hs]
  refine ⟨?_, rfl, ?_⟩
  · by_cases h0 : (s.addr + 1) % 65536 = 0
    · simp [h0]
    · simp [h0, Ne.symm wrap_text_ne_nil]
  · rw [scan_iteration_eq]
    generalize wrap_text = w
    generalize (s.addr + 1) % 65536 = a
    generalize (read_byte s.regs a inp).2 = b
    by_cases hb : b = 0 <;> by_cases h0 : a = 0 <;>
      simp [hb, h0, written, written_append, written_map_putchar, format_line_eq]

/-- Claim C7. For every register state and every address in 0..8191, after
`set_address` each of the thirteen address pins carries the corresponding bit
of the address (bits 0..4 on `PORTB` 0,1,2,3,7; bits 5..8 on `PORTD` 0,1,2,3;
bits 9,10 on `PORTC` 6,7; bits 11,12 on `PORTD` 6,7), whatever those bits were
before. -/
theorem set_address_drives_pins (r r' : Regs) (a : Nat) (ha : a ≤ 8191) :
    bus_address (set_address r a) = a ∧
    bus_address (set_address r' a) = bus_address (set_address r a) ∧
    (set_address r a).PORTB.testBit 0 = a.testBit 0 ∧
    (set_address r a).PORTB.testBit 1 = a.testBit 1 ∧
    (set_address r a).PORTB.testBit 2 = a.testBit 2 ∧
    (set_address r a).PORTB.testBit 3 = a.testBit 3 ∧
    (set_address r a).PORTB.testBit 7 = a.testBit 4 ∧
    (set_address r a).PORTD.testBit 0 = a.testBit 5 ∧
    (set_address r a).PORTD.testBit 1 = a.testBit 6 ∧
    (set_address r a).PORTD.testBit 2 = a.testBit 7 ∧
    (set_address r a).PORTD.testBit 3 = a.testBit 8 ∧
    (set_address r a).PORTC.testBit 6 = a.testBit 9 ∧
    (set_address r a).PORTC.testBit 7 = a.testBit 10 ∧
    (set_address r a).PORTD.testBit 6 = a.testBit 11 ∧
    (set_address r a).PORTD.testBit 7 = a.testBit 12 := by
  obtain ⟨h0, h1, h2, h3, h4, h5, h6, h7, h8, h9, h10, h11, h12⟩ := set_address_bits r a
  refine ⟨?_, ?_, h0, h1, h2, h3, h4, h5, h6, h7, h8, h9, h10, h11, h12⟩
  · rw [bus_address_set_address]; omega
  · rw [bus_address_set_address, bus_address_set_address]

/-- Witness for C7: address 0x1FFF from the reset registers. -/
theorem set_address_drives_pins_witness :
    0x1FFF ≤ 8191 ∧ bus_address (set_address reset_regs 0x1FFF) = 0x1FFF :=
  ⟨by decide, (set_address_drives_pins reset_regs reset_regs 0x1FFF (by decide)).1⟩

/-- Claim C8, evaluated on the code. From the reset registers the pin
configuration of `main` leaves bit 7 of `DDRD` at 0, so address pin 12 is not
an output: `SET_DDR(11)` and `SET_DDR(12)` write to `PORTD`.  Every other
direction bit is as the claim says (bit 6 of `DDRD` through `LED_CONFIG`). -/
theorem main_setup_leaves_addr12_input :
    (main_setup reset_regs).DDRD.testBit 7 = false ∧
    (main_setup reset_regs).DDRD = 0x4F ∧
    (main_setup reset_regs).PORTD = 0xC0 ∧
    (main_setup reset_regs).DDRB = 0x8F ∧
    (main_setup reset_regs).DDRC = 0xC0 ∧
    (main_setup reset_regs).DDRF = 0 := by
  decide

/-- Claim C9. For every value of `PINF` and `PINB`, bit `i` of the byte that
`read_byte` returns is the level of data pin `i` (bits 0..5 from `PINF`
0,1,4,5,6,7, bit 6 from `PINB` 6, bit 7 from `PINB` 5); the byte fits in 8
bits and no other register, address or input bit has any influence on it. -/
theorem read_byte_pins (r r' : Regs) (addr addr' : Nat) (inp : Input) (line' : Nat → Nat) :
    ((read_byte r addr inp).2).testBit 0 = inp.PINF.testBit 0 ∧
    ((read_byte r addr inp).2).testBit 1 = inp.PINF.testBit 1 ∧
    ((read_byte r addr inp).2).testBit 2 = inp.PINF.testBit 4 ∧
    ((read_byte r addr inp).2).testBit 3 = inp.PINF.testBit 5 ∧
    ((read_byte r addr inp).2).testBit 4 = inp.PINF.testBit 6 ∧
    ((read_byte r addr inp).2).testBit 5 = inp.PINF.testBit 7 ∧
    ((read_byte r addr inp).2).testBit 6 = inp.PINB.testBit 6 ∧
    ((read_byte r addr inp).2).testBit 7 = inp.PINB.testBit 5 ∧
    (read_byte r addr inp).2 < 256 ∧
    (read_byte r addr inp).2 =
      (read_byte r' addr'
        { PINB := inp.PINB &&& 0x60, PINC := 0, PIND := 0, PINF := inp.PINF &&& 0xF3,
          line := line' }).2 := by
  have hb := read_data_bits (settle (set_address r addr) inp)
  simp only [settle] at hb
  obtain ⟨h0, h1, h2, h3, h4, h5, h6, h7⟩ := hb
  rw [testBit_mod_256 _ _ (by decide)] at h0 h1 h2 h3 h4 h5 h6 h7
  refine ⟨h0, h1, h2, h3, h4, h5, h6, h7, read_data_lt _, ?_⟩
  simp only [read_byte, read_data_eq, settle, pin_level_toNat]
  simp only [testBit_mod_256 _ _ (by decide : (0:Nat) < 8), testBit_mod_256 _ _ (by decide : (1:Nat) < 8),
    testBit_mod_256 _ _ (by decide : (4:Nat) < 8), testBit_mod_256 _ _ (by decide : (5:Nat) < 8),
    testBit_mod_256 _ _ (by decide : (6:Nat) < 8), testBit_mod_256 _ _ (by decide : (7:Nat) < 8)]
  rw [testBit_and_mask inp.PINF 0xF3 0 (by decide), testBit_and_mask inp.PINF 0xF3 1 (by decide),
    testBit_and_mask inp.PINF 0xF3 4 (by decide), testBit_and_mask inp.PINF 0xF3 5 (by decide),
    testBit_and_mask inp.PINF 0xF3 6 (by decide), testBit_and_mask inp.PINF 0xF3 7 (by decide),
    testBit_and_mask inp.PINB 0x60 6 (by decide), testBit_and_mask inp.PINB 0x60 5 (by decide)]

/-- Claim C10. In any 8192 consecutive iterations, every address in 0..8191
is put on the thirteen address pins by exactly one of them. -/
theorem every_address_once (s : State) (inp : Nat → Input) (a : Nat) (ha : a ≤ 8191) :
    ∃! j, j < 8192 ∧ bus_address (scan_loop (j + 1) s inp).1.regs = a := by
  refine ⟨(a + 8192 - (s.addr + 1) % 8192) % 8192, ⟨?_, ?_⟩, ?_⟩
  · omega
  · rw [(scan_loop_succ_addr _ s inp).2]; omega
  · rintro j ⟨hj, hb⟩
    rw [(scan_loop_succ_addr _ s inp).2] at hb
    omega

/-- Witness for C10: address 5 in the first 8192 iterations after reset. -/
theorem every_address_once_witness :
    5 ≤ 8191 ∧
    ∃! j, j < 8192 ∧
      bus_address (scan_loop (j + 1) { addr := 0, regs := reset_regs }
        (fun _ => idle_input)).1.regs = 5 :=
  ⟨by decide, every_address_once _ _ 5 (by decide)⟩

/-! ## Lemmas: decoding, longer traces and the steps of `main` -/

theorem shift_mod_8192 (a i : Nat) (hi : i ≤ 12) :
    ((a % 8192) >>> i) &&& 1 = (a >>> i) &&& 1 := by
  simp only [Nat.shiftRight_eq_div_pow, Nat.and_one_is_mod]
  interval_cases i <;> norm_num <;> omega

theorem set_address_mod (r : Regs) (a : Nat) :
    set_address r a = set_address r (a % 8192) := by
  rw [set_address_eq, set_address_eq]
  simp only [shift_mod_8192 a _ (by decide : (0:Nat) ≤ 12), shift_mod_8192 a _ (by decide : (1:Nat) ≤ 12),
    shift_mod_8192 a _ (by decide : (2:Nat) ≤ 12), shift_mod_8192 a _ (by decide : (3:Nat) ≤ 12),
    shift_mod_8192 a _ (by decide : (4:Nat) ≤ 12), shift_mod_8192 a _ (by decide : (5:Nat) ≤ 12),
    shift_mod_8192 a _ (by decide : (6:Nat) ≤ 12), shift_mod_8192 a _ (by decide : (7:Nat) ≤ 12),
    shift_mod_8192 a _ (by decide : (8:Nat) ≤ 12), shift_mod_8192 a _ (by decide : (9:Nat) ≤ 12),
    shift_mod_8192 a _ (by decide : (10:Nat) ≤ 12), shift_mod_8192 a _ (by decide : (11:Nat) ≤ 12),
    shift_mod_8192 a _ (by decide : (12:Nat) ≤ 12)]

theorem hex_value_hexdigit (x : Nat) : hex_value (hexdigit x) = x % 16 := by
  have hand : (x % 256) &&& 0xF = x % 16 := by
    have := Nat.and_pow_two_sub_one_eq_mod (x % 256) 4
    norm_num at this
    omega
  unfold hexdigit
  simp only [hand]
  have hlt : x % 16 < 16 := Nat.mod_lt _ (by decide)
  generalize x % 16 = d at hlt
  interval_cases d <;> decide

theorem decode_hex_four (n : Nat) (hn : n < 65536) : decode_hex (spec_hex 4 n) = n := by
  rw [spec_hex_four n hn]
  simp only [decode_hex, List.foldl, hex_value_hexdigit, Nat.shiftRight_eq_div_pow]
  norm_num
  omega

theorem decode_hex_two (n : Nat) (hn : n < 256) : decode_hex (spec_hex 2 n) = n := by
  rw [spec_hex_two n hn]
  simp only [decode_hex, List.foldl, hex_value_hexdigit, Nat.shiftRight_eq_div_pow]
  norm_num
  omega

theorem reads_append (xs ys : List Event) : reads (xs ++ ys) = reads xs ++ reads ys := by
  induction xs with
  | nil => rfl
  | cons e xs ih => cases e <;> simp [reads, ih]

theorem reads_map_putchar (l : List Nat) : reads (l.map Event.putchar) = [] := by
  induction l with
  | nil => rfl
  | cons c l ih => simp [reads, ih]

theorem reads_scan_iteration (s : State) (inp : Input) :
    reads (scan_iteration s inp).2 = [(s.addr + 1) % 65536] := by
  rw [scan_iteration_eq]
  generalize wrap_text = w
  generalize (s.addr + 1) % 65536 = a
  generalize (read_byte s.regs a inp).2 = b
  by_cases hb : b = 0 <;> by_cases h0 : a = 0 <;>
    simp [hb, h0, reads, reads_append, reads_map_putchar, format_line_eq]

theorem written_scan_iteration (s : State) (inp : Input) :
    written (scan_iteration s inp).2 =
      if (read_byte s.regs ((s.addr + 1) % 65536) inp).2 = 0 then []
      else [payload (format_line inp.line ((s.addr + 1) % 65536)
        (read_byte s.regs ((s.addr + 1) % 65536) inp).2)] := by
  rw [scan_iteration_eq]
  generalize wrap_text = w
  generalize (s.addr + 1) % 65536 = a
  generalize (read_byte s.regs a inp).2 = b
  by_cases hb : b = 0 <;> by_cases h0 : a = 0 <;>
    simp [hb, h0, written, written_append, written_map_putchar, format_line_eq, payload]

theorem outputs_scan_iteration (s : State) (inp : Input) :
    outputs (scan_iteration s inp).2 =
      (sent (scan_iteration s inp).2).map Event.putchar ++
      (written (scan_iteration s inp).2).map Event.write := by
  rw [sent_scan_iteration, written_scan_iteration, scan_iteration_eq]
  generalize wrap_text = w
  generalize (s.addr + 1) % 65536 = a
  generalize (read_byte s.regs a inp).2 = b
  by_cases hb : b = 0 <;> by_cases h0 : a = 0 <;>
    simp [hb, h0, outputs, outputs_append, outputs_map_putchar, format_line_eq, payload]

/-- The state after `n + 1` passes is one pass after the state after `n`. -/
theorem scan_loop_snoc (n : Nat) :
    ∀ (s : State) (inp : Nat → Input),
      scan_loop (n + 1) s inp =
        ((scan_iteration (scan_loop n s inp).1 (inp n)).1,
         (scan_loop n s inp).2 ++ (scan_iteration (scan_loop n s inp).1 (inp n)).2) := by
  induction n with
  | zero =>
    intro s inp
    simp [scan_loop]
  | succ n ih =>
    intro s inp
    rw [scan_loop_succ, ih, scan_loop_succ]
    simp

theorem scan_loop_addr (n : Nat) (r : Regs) (inp : Nat → Input) :
    (scan_loop n (scan_start r) inp).1.addr = n % 65536 := by
  cases n with
  | zero => rw [scan_loop]; rfl
  | succ n =>
    rw [(scan_loop_succ_addr n _ inp).1]
    simp [scan_start]

theorem sent_scan_loop (n : Nat) :
    ∀ (s : State) (inp : Nat → Input), s.addr < 65536 →
      sent (scan_loop n s inp).2 =
        (List.replicate ((s.addr + n) / 65536) wrap_text).flatten := by
  induction n with
  | zero =>
    intro s inp hs
    rw [scan_loop]
    have : s.addr / 65536 = 0 := by omega
    simp [this, sent]
  | succ n ih =>
    intro s inp hs
    rw [scan_loop_succ]
    have h := ih (scan_iteration s (inp 0)).1 (fun k => inp (k + 1))
      (by rw [scan_iteration_addr]; exact Nat.mod_lt _ (by decide))
    rw [scan_iteration_addr] at h
    show sent ((scan_iteration s (inp 0)).2 ++
      (scan_loop n (scan_iteration s (inp 0)).1 fun k => inp (k + 1)).2) = _
    rw [sent_append, h, sent_scan_iteration]
    by_cases h0 : (s.addr + 1) % 65536 = 0
    · have e1 : s.addr = 65535 := by omega
      have e2 : (s.addr + (n + 1)) / 65536 = (0 + n) / 65536 + 1 := by omega
      rw [if_pos h0, h0, e2, List.replicate_succ]
      simp
    · have e2 : (s.addr + (n + 1)) / 65536 = ((s.addr + 1) % 65536 + n) / 65536 := by omega
      rw [if_neg h0, e2]
      simp

theorem reads_scan_loop (n : Nat) :
    ∀ (s : State) (inp : Nat → Input),
      reads (scan_loop n s inp).2 = (List.range n).map (fun i => (s.addr + i + 1) % 65536) := by
  induction n with
  | zero => intro s inp; rw [scan_loop]; rfl
  | succ n ih =>
    intro s inp
    rw [scan_loop_snoc]
    show reads ((scan_loop n s inp).2 ++ (scan_iteration (scan_loop n s inp).1 (inp n)).2) = _
    rw [reads_append, ih, reads_scan_iteration, List.range_succ, List.map_append]
    congr 1
    cases n with
    | zero => rw [scan_loop]; simp
    | succ m =>
      rw [(scan_loop_succ_addr m s inp).1]
      simp
      omega

theorem read_byte_idle (r : Regs) (a : Nat) : (read_byte r a idle_input).2 = 0 := by
  simp [read_byte, read_data_eq, settle, idle_input, pin_level]

theorem main_setup_eq_foldl (r : Regs) :
    (led_actions ++ config_actions).foldl Action.apply r = main_setup r := by
  rfl

theorem is_poll_not_direction (a : Action) (h : a.is_poll = true) :
    a.sets_direction = false ∧ a.is_scan = false := by
  cases a <;> simp_all [Action.is_poll, Action.sets_direction, Action.is_scan]

theorem filter_of_all_poll (w : List Action) (h : w.all Action.is_poll = true) :
    w.filter Action.sets_direction = [] ∧ w.any Action.is_scan = false := by
  induction w with
  | nil => exact ⟨rfl, rfl⟩
  | cons a w ih =>
    simp only [List.all_cons, Bool.and_eq_true] at h
    obtain ⟨h1, h2⟩ := ih h.2
    obtain ⟨h3, h4⟩ := is_poll_not_direction a h.1
    simp [List.filter_cons, h1, h2, h3, h4]

/-- With a host that is configured at call `k1`, the first polling loop ends:
its calls are all polls and the last one returned non-zero. -/
theorem await_configured_ends (h : Host) (k1 : Nat) (hc : h.configured k1 % 256 ≠ 0) :
    ∀ (fuel k : Nat), k ≤ k1 → k1 < k + fuel →
      ∃ w c, await_configured h fuel k = some (w ++ [Action.usb_configured c]) ∧
        c ≠ 0 ∧ w.all Action.is_poll = true := by
  intro fuel
  induction fuel with
  | zero => intro k h1 h2; omega
  | succ fuel ih =>
    intro k h1 h2
    by_cases hk : h.configured k % 256 ≠ 0
    · exact ⟨[], h.configured k % 256, by simp [await_configured, hk], hk, rfl⟩
    · have hne : k ≠ k1 := fun e => hk (e ▸ hc)
      obtain ⟨w, c, hw, hc', hall⟩ := ih (k + 1) (by omega) (by omega)
      refine ⟨Action.usb_configured (h.configured k % 256) :: w, c, ?_, hc', ?_⟩
      · simp [await_configured, hk, hw]
      · simp [Action.is_poll, hall]

/-- With a host that sets DTR at call `k2`, the second polling loop ends: its
calls are all polls and the last one had the DTR bit set. -/
theorem await_dtr_ends (dtr : Nat) (h : Host) (k2 : Nat)
    (hd : (h.control k2 % 256) &&& dtr ≠ 0) :
    ∀ (fuel k : Nat), k ≤ k2 → k2 < k + fuel →
      ∃ w c, await_dtr dtr h fuel k = some (w ++ [Action.get_control c]) ∧
        c &&& dtr ≠ 0 ∧ w.all Action.is_poll = true := by
  intro fuel
  induction fuel with
  | zero => intro k h1 h2; omega
  | succ fuel ih =>
    intro k h1 h2
    by_cases hk : (h.control k % 256) &&& dtr ≠ 0
    · exact ⟨[], h.control k % 256, by simp [await_dtr, hk], hk, rfl⟩
    · have hne : k ≠ k2 := fun e => hk (e ▸ hd)
      obtain ⟨w, c, hw, hc', hall⟩ := ih (k + 1) (by omega) (by omega)
      refine ⟨Action.get_control (h.control k % 256) :: w, c, ?_, hc', ?_⟩
      · simp [await_dtr, hk, hw]
      · simp [Action.is_poll, hall]

theorem any_map_scan (l : List Event) :
    (l.map Action.scan).any Action.sets_direction = false ∧
    (l.map Action.scan).any Action.is_poll = false ∧
    (l.map Action.scan).filter Action.is_scan = l.map Action.scan := by
  induction l with
  | nil => exact ⟨rfl, rfl, rfl⟩
  | cons e l ih =>
    obtain ⟨h1, h2, h3⟩ := ih
    simp [Action.sets_direction, Action.is_poll, Action.is_scan, h1, h2, h3]

theorem any_map_serial (l : List Event) :
    (l.map Action.serial).any Action.sets_direction = false ∧
    (l.map Action.serial).any Action.is_poll = false ∧
    (l.map Action.serial).filter Action.is_scan = [] := by
  induction l with
  | nil => exact ⟨rfl, rfl, rfl⟩
  | cons e l ih =>
    obtain ⟨h1, h2, h3⟩ := ih
    simp [Action.sets_direction, Action.is_poll, Action.is_scan, h1, h2, h3]

/-! ## The claims, continued -/

/-- Claim C11. If every read of the data bus returns 0, then after any number
of iterations no data line has been written, and what the scan loop has handed
to the serial channel is a concatenation of copies of the wrap notice. -/
theorem silent_bus_only_wraps (n : Nat) (s : State) (inp : Nat → Input)
    (h : ∀ k r a, (read_byte r a (inp k)).2 = 0) :
    written (scan_loop n s inp).2 = [] ∧
    ∃ m, outputs (scan_loop n s inp).2 =
      ((List.replicate m wrap_text).flatten).map Event.putchar := by
  induction n generalizing s inp with
  | zero =>
    rw [scan_loop]
    exact ⟨rfl, 0, rfl⟩
  | succ n ih =>
    obtain ⟨hw, m, hm⟩ := ih (scan_iteration s (inp 0)).1 (fun k => inp (k + 1))
      (fun k r a => h (k + 1) r a)
    rw [scan_loop_succ]
    have hw0 : written (scan_iteration s (inp 0)).2 = [] := by
      rw [written_scan_iteration, if_pos (h 0 _ _)]
    refine ⟨?_, ?_⟩
    · show written ((scan_iteration s (inp 0)).2 ++ _) = []
      rw [written_append, hw, hw0]; rfl
    · show ∃ m, outputs ((scan_iteration s (inp 0)).2 ++ _) = _
      rw [outputs_append, hm, outputs_scan_iteration, hw0, sent_scan_iteration]
      by_cases h0 : (s.addr + 1) % 65536 = 0
      · refine ⟨m + 1, ?_⟩
        rw [if_pos h0, List.replicate_succ]
        simp
      · refine ⟨m, ?_⟩
        rw [if_neg h0]
        simp

/-- Witness for C11: with every pin low, three iterations from counter 65534
(one of them wraps) write no data line. -/
theorem silent_bus_only_wraps_witness :
    (∀ (k : Nat) (r : Regs) (a : Nat),
      (read_byte r a ((fun _ => idle_input) k)).2 = 0) ∧
    written (scan_loop 3 { addr := 65534, regs := reset_regs } (fun _ => idle_input)).2 = [] :=
  ⟨fun _ r a => read_byte_idle r a,
   (silent_bus_only_wraps 3 { addr := 65534, regs := reset_regs } (fun _ => idle_input)
     (fun _ r a => read_byte_idle r a)).1⟩

/-- Counterexample to C12 as stated: with a host that is ready at once, step 5
of `main` is the first `usb_configured()` poll and step 8, after both waits,
is `SET_DDR(0)`, a write to the direction bit of address pin 0. -/
theorem direction_writes_after_wait :
    (main 1 1 ready_host reset_regs 0 (fun _ => idle_input)).map
        (fun t => (t.get? 5, t.get? 8)) =
      some (some (Action.usb_configured 1), some (Action.set_bit Reg.DDRB 0)) ∧
    (Action.usb_configured 1).is_poll = true ∧
    (Action.set_bit Reg.DDRB 0).sets_direction = true := by
  decide

/-- Claim C12, amended. When the host becomes configured and sets DTR within
the fuel, `main` runs through: the `SET_DDR`/`CLR_DDR` writes come as one
block after both polling loops have ended (the last `usb_configured()` call
returned non-zero, the last `usb_serial_get_control()` call had DTR set) and
before every step of the scan loop; before that block the only write to the
direction bit of a bus pin is `LED_CONFIG` (`DDRD` bit 6), and after it there
is no poll and no direction write. -/
theorem main_phase_order (dtr fuel : Nat) (h : Host) (r : Regs) (n : Nat) (inp : Nat → Input)
    (k1 k2 : Nat) (hc : h.configured k1 % 256 ≠ 0) (hd : (h.control k2 % 256) &&& dtr ≠ 0)
    (hf1 : k1 < fuel) (hf2 : k2 < fuel) :
    ∃ pre post c1 c2,
      main dtr fuel h r n inp = some (pre ++ config_actions ++ post) ∧
      pre.filter Action.sets_direction = [Action.set_bit Reg.DDRD 6] ∧
      pre.any Action.is_scan = false ∧
      Action.usb_configured c1 ∈ pre ∧ c1 ≠ 0 ∧
      pre.getLast? = some (Action.get_control c2) ∧ c2 &&& dtr ≠ 0 ∧
      config_actions.any Action.is_poll = false ∧
      config_actions.any Action.is_scan = false ∧
      post.any Action.sets_direction = false ∧
      post.any Action.is_poll = false ∧
      post.filter Action.is_scan =
        (scan_loop n (scan_start (main_setup r)) inp).2.map Action.scan := by
  obtain ⟨w1, c1, e1, hc1, a1⟩ := await_configured_ends h k1 hc fuel 0 (by omega) (by omega)
  obtain ⟨w2, c2, e2, hc2, a2⟩ := await_dtr_ends dtr h k2 hd fuel 0 (by omega) (by omega)
  obtain ⟨f1, s1⟩ := filter_of_all_poll w1 a1
  obtain ⟨f2, s2⟩ := filter_of_all_poll w2 a2
  obtain ⟨m1, m2, m3⟩ := any_map_scan (scan_loop n (scan_start (main_setup r)) inp).2
  obtain ⟨n1, n2, n3⟩ := any_map_serial (send_str welcome_msg)
  refine ⟨led_actions ++ [Action.usb_init] ++ (w1 ++ [Action.usb_configured c1]) ++
      [Action.delay_ms 1000] ++ (w2 ++ [Action.get_control c2]),
    [Action.flush_input] ++ (send_str welcome_msg).map Action.serial ++
      (scan_loop n (scan_start (main_setup r)) inp).2.map Action.scan,
    c1, c2, ?_, ?_, ?_, ?_, hc1, ?_, hc2, by decide, by decide, ?_, ?_, ?_⟩
  · simp only [main, e1, e2, List.append_assoc]
  · simp only [List.filter_append, f1, f2]
    rfl
  · simp only [List.any_append, s1, s2]
    rfl
  · simp
  · rw [← List.append_assoc, List.getLast?_concat]
  · simp only [List.any_append, m1, n1]
    rfl
  · simp only [List.any_append, m2, n2]
    rfl
  · simp only [List.filter_append, m3, n3]
    simp [Action.is_scan]


/-- Witness for C12: the ready host satisfies both hypotheses with one unit of
fuel, and `main` returns a trace. -/
theorem main_phase_order_witness :
    ready_host.configured 0 % 256 ≠ 0 ∧ (ready_host.control 0 % 256) &&& 1 ≠ 0 ∧
    (main 1 1 ready_host reset_regs 2 (fun _ => idle_input)).isSome = true :=
  ⟨by decide, by decide,
   match main_phase_order 1 1 ready_host reset_regs 2 (fun _ => idle_input) 0 0
     (by decide) (by decide) (by decide) (by decide) with
   | ⟨_, _, _, _, h, _⟩ => by rw [h]; rfl⟩

/-- Claim C13. `set_address` uses only the low 13 bits of its argument: the
registers after `set_address(a)` are those after `set_address(a mod 8192)`.
For a 16-bit counter value of 0x2000 or more, the address on the bus is
`a mod 8192`, which is not `a`, while the four-digit field of the line renders
`a` itself. -/
theorem set_address_low_bits (r : Regs) (line : Nat → Nat) (a b : Nat)
    (h1 : 0x2000 ≤ a) (h2 : a ≤ 0xFFFF) :
    set_address r a = set_address r (a % 8192) ∧
    bus_address (set_address r a) = a % 8192 ∧
    bus_address (set_address r a) ≠ a ∧
    (payload (format_line line a b)).take 4 = spec_hex 4 a ∧
    decode_hex ((payload (format_line line a b)).take 4) = a ∧
    (payload (format_line line a b)).take 4 ≠ spec_hex 4 (bus_address (set_address r a)) := by
  have hf : (payload (format_line line a b)).take 4 = spec_hex 4 a := by
    rw [format_line_eq, spec_hex_four a (by omega)]
    simp [payload]
  have hb := bus_address_set_address r a
  refine ⟨set_address_mod r a, hb, ?_, hf, ?_, ?_⟩
  · rw [hb]; omega
  · rw [hf, decode_hex_four a (by omega)]
  · rw [hf, hb]
    intro he
    have := congrArg decode_hex he
    rw [decode_hex_four a (by omega), decode_hex_four _ (by omega)] at this
    omega

/-- Witness for C13: counter 0x2001 drives address 1 onto the bus. -/
theorem set_address_low_bits_witness :
    0x2000 ≤ 0x2001 ∧ 0x2001 ≤ 0xFFFF ∧
    bus_address (set_address reset_regs 0x2001) = 1 :=
  ⟨by decide, by decide,
   (set_address_low_bits reset_regs idle_input.line 0x2001 0x41 (by decide) (by decide)).2.1.trans
     (by decide)⟩

/-- Claim C14. The counter starts at 0 and is incremented before the read:
the first `n` iterations read `1, 2, .., n` modulo 65536, iteration `j + 1`
reads `(j + 1) mod 65536` and every line it writes carries that number in its
address field; the first address read is 1; address 0 is not read in the
first 65535 iterations and is read in iteration 65536, which is also the first
one to send a wrap notice. -/
theorem scan_counts_from_one (r : Regs) (inp : Nat → Input) (n j : Nat) :
    (scan_start r).addr = 0 ∧
    reads (scan_loop n (scan_start r) inp).2 = (List.range n).map (fun i => (i + 1) % 65536) ∧
    reads (scan_iteration (scan_loop j (scan_start r) inp).1 (inp j)).2 = [(j + 1) % 65536] ∧
    (written (scan_iteration (scan_loop j (scan_start r) inp).1 (inp j)).2).map (List.take 4) =
      (written (scan_iteration (scan_loop j (scan_start r) inp).1 (inp j)).2).map
        (fun _ => spec_hex 4 ((j + 1) % 65536)) ∧
    reads (scan_loop 1 (scan_start r) inp).2 = [1] ∧
    0 ∉ reads (scan_loop 65535 (scan_start r) inp).2 ∧
    reads (scan_iteration (scan_loop 65535 (scan_start r) inp).1 (inp 65535)).2 = [0] ∧
    sent (scan_loop 65535 (scan_start r) inp).2 = [] ∧
    sent (scan_iteration (scan_loop 65535 (scan_start r) inp).1 (inp 65535)).2 = wrap_text := by
  have hr : ∀ m, reads (scan_loop m (scan_start r) inp).2 =
      (List.range m).map (fun i => (i + 1) % 65536) := by
    intro m
    rw [reads_scan_loop]
    simp [scan_start]
  have hj : ∀ m, ((scan_loop m (scan_start r) inp).1.addr + 1) % 65536 = (m + 1) % 65536 := by
    intro m
    rw [scan_loop_addr]; omega
  refine ⟨rfl, hr n, ?_, ?_, ?_, ?_, ?_, ?_, ?_⟩
  · rw [reads_scan_iteration, hj]
  · rw [written_scan_iteration, hj]
    have hlt : (j + 1) % 65536 < 65536 := Nat.mod_lt _ (by decide)
    split
    · rfl
    · rw [format_line_eq, spec_hex_four _ hlt]
      simp [payload]
  · rw [hr]; decide
  · rw [hr]
    simp only [List.mem_map, List.mem_range, not_exists, not_and]
    intro x hx
    omega
  · rw [reads_scan_iteration, hj]
  · rw [sent_scan_loop 65535 _ inp (by simp [scan_start])]
    simp [scan_start]
  · rw [sent_scan_iteration, hj]
    simp

/-- Claim C15. `set_address` changes nothing but the thirteen address output
bits: `PORTB` bits 4,5,6, `PORTC` bits 0..5 and `PORTD` bits 4,5 keep their
values, and `PORTF`, every `DDRx`, every `PINx` and `CLKPR` are unchanged. -/
theorem set_address_frame (r : Regs) (a : Nat) :
    (set_address r a).PORTB.testBit 4 = r.PORTB.testBit 4 ∧
    (set_address r a).PORTB.testBit 5 = r.PORTB.testBit 5 ∧
    (set_address r a).PORTB.testBit 6 = r.PORTB.testBit 6 ∧
    (set_address r a).PORTC.testBit 0 = r.PORTC.testBit 0 ∧
    (set_address r a).PORTC.testBit 1 = r.PORTC.testBit 1 ∧
    (set_address r a).PORTC.testBit 2 = r.PORTC.testBit 2 ∧
    (set_address r a).PORTC.testBit 3 = r.PORTC.testBit 3 ∧
    (set_address r a).PORTC.testBit 4 = r.PORTC.testBit 4 ∧
    (set_address r a).PORTC.testBit 5 = r.PORTC.testBit 5 ∧
    (set_address r a).PORTD.testBit 4 = r.PORTD.testBit 4 ∧
    (set_address r a).PORTD.testBit 5 = r.PORTD.testBit 5 ∧
    (set_address r a).PORTF = r.PORTF ∧
    (set_address r a).DDRB = r.DDRB ∧ (set_address r a).DDRC = r.DDRC ∧
    (set_address r a).DDRD = r.DDRD ∧ (set_address r a).DDRF = r.DDRF ∧
    (set_address r a).PINB = r.PINB ∧ (set_address r a).PINC = r.PINC ∧
    (set_address r a).PIND = r.PIND ∧ (set_address r a).PINF = r.PINF ∧
    (set_address r a).CLKPR = r.CLKPR := by
  rw [set_address_eq]
  simp only [testBit_ADDR_BIT, Nat.reduceLT, Nat.reduceEqDiff, decide_True, Bool.true_and,
    if_true, if_false, and_self]

/-- Claim C16. The data line determines the pair it was built from: two equal
lines formatted from 16-bit counters and bytes come from the same counter and
the same byte; the first four characters decode as hex to the counter and
characters 5 and 6 decode to the byte. -/
theorem line_determines_pair (l1 l2 : Nat → Nat) (a1 a2 b1 b2 : Nat)
    (ha1 : a1 ≤ 0xFFFF) (ha2 : a2 ≤ 0xFFFF) (hb1 : b1 ≤ 0xFF) (hb2 : b2 ≤ 0xFF)
    (he : format_line l1 a1 b1 = format_line l2 a2 b2) :
    (a1 = a2 ∧ b1 = b2) ∧
    decode_hex ((payload (format_line l1 a1 b1)).take 4) = a1 ∧
    decode_hex (((payload (format_line l1 a1 b1)).drop 5).take 2) = b1 := by
  have d4 : ∀ (l : Nat → Nat) (a b : Nat), a ≤ 0xFFFF →
      decode_hex ((payload (format_line l a b)).take 4) = a := by
    intro l a b ha
    rw [format_line_eq]
    have := decode_hex_four a (by omega)
    rw [spec_hex_four a (by omega)] at this
    simpa [payload] using this
  have d2 : ∀ (l : Nat → Nat) (a b : Nat), b ≤ 0xFF →
      decode_hex (((payload (format_line l a b)).drop 5).take 2) = b := by
    intro l a b hb
    rw [format_line_eq]
    have := decode_hex_two b (by omega)
    rw [spec_hex_two b (by omega)] at this
    simpa [payload] using this
  refine ⟨?_, d4 l1 a1 b1 ha1, d2 l1 a1 b1 hb1⟩
  constructor
  · rw [← d4 l1 a1 b1 ha1, ← d4 l2 a2 b2 ha2, he]
  · rw [← d2 l1 a1 b1 hb1, ← d2 l2 a2 b2 hb2, he]

/-- Witness for C16: counter 0x1FFF and byte 0x41. -/
theorem line_determines_pair_witness :
    0x1FFF ≤ 0xFFFF ∧ 0x41 ≤ 0xFF ∧
    decode_hex ((payload (format_line idle_input.line 0x1FFF 0x41)).take 4) = 0x1FFF ∧
    decode_hex (((payload (format_line idle_input.line 0x1FFF 0x41)).drop 5).take 2) = 0x41 :=
  ⟨by decide, by decide,
   (line_determines_pair idle_input.line idle_input.line 0x1FFF 0x1FFF 0x41 0x41
     (by decide) (by decide) (by decide) (by decide) rfl).2⟩

end Prom
